import Mathlib

/-!
Verification of `harmonize.py` (wcyuan/Harmonize): a shallow embedding of the
pitch algebra (Note / Interval / Chord) and the backward harmonization search,
together with theorems settling the specification claims.

Modelling conventions:
* Python integers are `Int`.  Python `%` and `//` on a positive divisor agree
  with Lean's `%` / `/` on `Int` (Euclidean = floor division for positive
  divisors), which is what the source relies on (`math.floor(x / 12)`,
  `x % 12`).
* The class `Interval` inherits from `Note` and only reinterprets the same
  three fields (name, accidental, octave); arithmetic dispatches on
  `isinstance(self, Interval)`.  We embed both classes as one structure with a
  kind tag `isInterval`.
* Every `Note` reachable in the harmonization core keeps the default
  `isotonic_is_equal = True`, so Python `==` / `<` on notes compare `steps`,
  and Python `list.sort()` of notes is a stable sort by `steps`.  We use
  Mathlib's `List.insertionSort` (also stable) with that key.
* Attribute freezing (`FrozenClass`) is an imperative protocol; it is embedded
  separately at the end of the definitions as a small state machine over
  attribute dictionaries.
-/

namespace Harmonize

/-- Source `Note._scale_num_to_steps(scale_num, accidental, octave)`:
`octave += floor(scale_num / 7)`; `steps = (scale_num % 7) * 2`, minus one when
`scale_num % 7 > 2` (the single E-F half step), plus `octave * 12`, plus
`accidental`. -/
def scale_num_to_steps (scale_num accidental octave : Int) : Int :=
  let octave2 := octave + scale_num / 7
  let base := scale_num % 7 * 2
  let base2 := if scale_num % 7 > 2 then base - 1 else base
  base2 + octave2 * 12 + accidental

/-- Source `Note._steps_to_scale_num(steps, flat)`: returns the triple
`(scale_num, accidental, octave)`.  `octave = floor(steps / 12)`,
`adj = steps % 12` bumped by one from 5 upward; even `adj` is a natural,
odd `adj` is a sharp of the lower note, or with `flat` a flat of the upper
note. -/
def steps_to_scale_num (steps : Int) (flat : Bool) : Int × Int × Int :=
  let octave := steps / 12
  let adj0 := steps % 12
  let adj := if adj0 ≥ 5 then adj0 + 1 else adj0
  let scale_num := adj / 2
  if adj % 2 = 0 then (scale_num, 0, octave)
  else if flat then (scale_num + 1, -1, octave)
  else (scale_num, 1, octave)

/-- Composition feeding the triple produced by `steps_to_scale_num` back into
`scale_num_to_steps` (argument order: scale number, accidental, octave). -/
def steps_roundtrip (s : Int) (flat : Bool) : Int :=
  let t := steps_to_scale_num s flat
  scale_num_to_steps t.1 t.2.1 t.2.2

/-- A Python `Note` (and, with `isInterval = true`, an `Interval`): `name` is
the index of the letter in `('C','D','E','F','G','A','B')`, `accidental` a
signed half-step offset, `octave` a signed octave index (0 = middle C's
octave).  All constructor paths of the source produce `name` in `0..6`. -/
structure Note where
  name : Nat
  accidental : Int
  octave : Int
  isInterval : Bool
deriving DecidableEq

instance : Inhabited Note := ⟨⟨0, 0, 0, false⟩⟩

/-- Source `Note._scale_name_to_num(name, octave)`: letter index plus
`octave * 7`. -/
def Note.scale_num (n : Note) : Int := (n.name : Int) + 7 * n.octave

/-- Source `Note.steps` property, i.e. `_name_to_steps(name, accidental,
octave)`: steps of the bare letter, plus the accidental, plus `octave * 12`. -/
def Note.steps (n : Note) : Int :=
  scale_num_to_steps (n.name : Int) 0 0 + n.accidental + n.octave * 12

/-- Construction `Note(scale_num=sn, accidental=acc)` (and, for intervals,
`Interval(distance=sn, accidental=acc)`): the letter is `sn % 7`, the octave
`floor(sn / 7)` (source `_scale_num_to_name`). -/
def noteOfScaleNum (isIntv : Bool) (sn acc : Int) : Note :=
  ⟨(sn % 7).toNat, acc, sn / 7, isIntv⟩

/-- Construction `Note(steps=s)`: the source converts with
`_steps_to_scale_num(s)` (never passing `flat`) and keeps the returned
octave. -/
def noteOfSteps (isIntv : Bool) (s : Int) : Note :=
  let t := steps_to_scale_num s false
  ⟨(t.1 % 7).toNat, t.2.1, t.2.2, isIntv⟩

/-- Source `Note.__add__` (on two `Note`s; a non-`Note` right operand is first
wrapped as `Interval(steps=other)` by the source and is not needed here):
sum the scale numbers, recover the accidental from the steps, and build a
`Note` or `Interval` according to the type of the left operand. -/
def Note.add (a b : Note) : Note :=
  let sn := a.scale_num + b.scale_num
  let acc := a.steps + b.steps - scale_num_to_steps sn 0 0
  noteOfScaleNum a.isInterval sn acc

/-- Source `Note.__sub__` (on two `Note`s).  `Note - Interval` keeps the sign
and yields a `Note`; every other combination takes absolute values and yields
an `Interval`. -/
def Note.sub (a b : Note) : Note :=
  let d := a.scale_num - b.scale_num
  let s := a.steps - b.steps
  if !a.isInterval && b.isInterval then
    noteOfScaleNum false d (s - scale_num_to_steps d 0 0)
  else
    noteOfScaleNum true |d| (|s| - scale_num_to_steps |d| 0 0)

/-- Source `Interval.distance` property: `abs(scale_num)`. -/
def Note.distance (n : Note) : Int := |n.scale_num|

/-- Source `Note.match(other, nooctave)`: pitch-class equality
(`(steps difference) % 12 == 0`) or exact steps equality. -/
def Note.match' (a b : Note) (nooctave : Bool) : Bool :=
  if nooctave then (a.steps - b.steps) % 12 == 0
  else a.steps == b.steps

/-- Python `==` on the notes of the core (all keep the default
`isotonic_is_equal = True`): equality of `steps`. -/
def noteEq (a b : Note) : Bool := a.steps == b.steps

/-- Source `Note(short=other)` copy construction, used as `Note(intv)` in
`apply_progression`: copies name, accidental and octave and forgets the
`Interval` type. -/
def plain_copy (n : Note) : Note := ⟨n.name, n.accidental, n.octave, false⟩

/-- Source `Interval.__init__(distance, interval_type)` with
`_interval_type_to_accidental`: distances congruent to 0, 3 or 4 mod 7 use the
perfect family (diminished/perfect/augmented), the others the
diminished/minor/major/augmented family.  A type outside the family raises in
the source; those arguments are never used and fall back to 0 here. -/
def mkIntervalDT (distance : Int) (itype : String) : Note :=
  let dm := distance % 7
  let acc : Int :=
    if dm = 0 ∨ dm = 3 ∨ dm = 4 then
      if itype = "DIMINISHED" then -1
      else if itype = "PERFECT" then 0
      else if itype = "AUGMENTED" then 1
      else 0
    else
      if itype = "DIMINISHED" then -2
      else if itype = "MINOR" then -1
      else if itype = "MAJOR" then 0
      else if itype = "AUGMENTED" then 1
      else 0
  noteOfScaleNum true distance acc

/-- Note constant `C = Note('C')`. -/
def C : Note := ⟨0, 0, 0, false⟩

/-- Note constant `D = Note('D')`. -/
def D : Note := ⟨1, 0, 0, false⟩

/-- Note constant `E = Note('E')`. -/
def E : Note := ⟨2, 0, 0, false⟩

/-- Note constant `F = Note('F')`. -/
def F : Note := ⟨3, 0, 0, false⟩

/-- Note constant `G = Note('G')`. -/
def G : Note := ⟨4, 0, 0, false⟩

/-- Note constant `A = Note('A')`. -/
def A : Note := ⟨5, 0, 0, false⟩

/-- Note constant `B = Note('B')`. -/
def B : Note := ⟨6, 0, 0, false⟩

/-- Note constant `C1 = Note('C1')` (C in octave 1). -/
def C1 : Note := ⟨0, 0, 1, false⟩

/-- Note constant `D1 = Note('D1')`. -/
def D1 : Note := ⟨1, 0, 1, false⟩

/-- Note constant `E1 = Note('E1')`. -/
def E1 : Note := ⟨2, 0, 1, false⟩

/-- Note constant `F1 = Note('F1')`. -/
def F1 : Note := ⟨3, 0, 1, false⟩

/-- Interval constant `U = Interval('P1')`. -/
def U : Note := mkIntervalDT 0 "PERFECT"

/-- Interval constant `m3 = Interval('m3')`. -/
def m3 : Note := mkIntervalDT 2 "MINOR"

/-- Interval constant `M3 = Interval('M3')`. -/
def M3 : Note := mkIntervalDT 2 "MAJOR"

/-- Interval constant `P4 = Interval('P4')`. -/
def P4 : Note := mkIntervalDT 3 "PERFECT"

/-- Interval constant `d5 = Interval('d5')`. -/
def d5 : Note := mkIntervalDT 4 "DIMINISHED"

/-- Interval constant `P5 = Interval('P5')`. -/
def P5 : Note := mkIntervalDT 4 "PERFECT"

/-- Interval constant `A5 = Interval('A5')`. -/
def A5 : Note := mkIntervalDT 4 "AUGMENTED"

/-- Interval constant `d7 = Interval('d7')`. -/
def d7 : Note := mkIntervalDT 6 "DIMINISHED"

/-- Interval constant `m7 = Interval('m7')`. -/
def m7 : Note := mkIntervalDT 6 "MINOR"

/-- Interval constant `M7 = Interval('M7')`. -/
def M7 : Note := mkIntervalDT 6 "MAJOR"

/-- Interval constant `M2 = Interval('M2')` (used only by the source
doctests we replay below). -/
def M2 : Note := mkIntervalDT 1 "MAJOR"

/-- Interval constant `O = Interval('P8')`. -/
def O : Note := mkIntervalDT 7 "PERFECT"

/-- Python tuple equality on tuples of notes/intervals: same length and
elementwise `==` (which, under the default isotonic policy, compares
`steps`). -/
def noteListEq (xs ys : List Note) : Bool :=
  xs.length == ys.length &&
    (xs.zip ys).all (fun p => p.1.steps == p.2.steps)

/-- Python `notelist.sort()` on notes of the core: a stable sort by the
isotonic comparison key `steps`. -/
def sortNotes (l : List Note) : List Note :=
  l.insertionSort (fun x y => x.steps ≤ y.steps)

/-- A Python `Chord`: the ordered tuple of notes plus the optional key. -/
structure Chord where
  notes : List Note
  key : Option Note
deriving DecidableEq

instance : Inhabited Chord := ⟨⟨[], none⟩⟩

/-- Source `Chord.__init__(notes=..., key=...)`: sorts the notes and stores
the key.  (The source raises on an empty tuple; the chords of the core are
never empty.) -/
def chordOfNotes (notes : List Note) (key : Option Note) : Chord :=
  ⟨sortNotes notes, key⟩

/-- Source `Chord._QUALITIES` table.  (A Python dict: its iteration order is
arbitrary but the ten interval shapes are pairwise distinct in steps, so every
lookup below has at most one hit and the order is immaterial.) -/
def QUALITIES : List (String × List Note) :=
  [("major", [M3, P5]),
   ("minor", [m3, P5]),
   ("augmented", [M3, A5]),
   ("diminished", [m3, d5]),
   ("dominant-seventh", [M3, P5, m7]),
   ("minor-seventh", [m3, P5, m7]),
   ("major-seventh", [M3, P5, M7]),
   ("augmented-seventh", [M3, A5, m7]),
   ("diminished-seventh", [m3, d5, d7]),
   ("half-diminished-seventh", [m3, d5, m7])]

/-- Source `Chord._notes_to_intervals(notes)`:
`tuple(n - notes[0] for n in notes[1:])`. -/
def notes_to_intervals (notes : List Note) : List Note :=
  (notes.drop 1).map (fun n => n.sub notes.headI)

/-- Source `Chord._intervals_to_quality(intervals)`: with 2 or 3 intervals,
the name of the unique table entry equal (elementwise, by steps) to the given
tuple; otherwise no quality. -/
def intervals_to_quality (intervals : List Note) : Option String :=
  if intervals.length == 2 || intervals.length == 3 then
    (QUALITIES.find? (fun q => noteListEq intervals q.2)).map Prod.fst
  else none

/-- Source `Chord.quality` property: `_notes_to_quality(self.notes)`, with the
explicit sentinel `"Unknown"` when the lookup fails. -/
def Chord.quality (c : Chord) : String :=
  match intervals_to_quality (notes_to_intervals c.notes) with
  | none => "Unknown"
  | some q => q

/-- Source `Chord.intervals` property: intervals of the *stored* notes
(without the key) relative to the first stored note. -/
def Chord.intervals (c : Chord) : List Note := notes_to_intervals c.notes

/-- Source `Chord.real_notes` property: the stored notes, or `key + n` for
each of them when a key is present. -/
def Chord.real_notes (c : Chord) : List Note :=
  match c.key with
  | none => c.notes
  | some k => c.notes.map (fun n => k.add n)

/-- Source `Chord.has_note(note, exact)`: membership in `real_notes` by
Python `==` (steps) when exact, by octave-agnostic `Note.match` otherwise. -/
def Chord.has_note (c : Chord) (note : Note) (exact : Bool) : Bool :=
  if exact then c.real_notes.any (fun n => noteEq n note)
  else c.real_notes.any (fun n => n.match' note true)

/-- Source `Chord.match(other, nooctave)`: positional comparison of the two
`real_notes` tuples via `zip` (which silently truncates to the shorter
tuple). -/
def Chord.match' (a b : Chord) (nooctave : Bool) : Bool :=
  (a.real_notes.zip b.real_notes).all (fun p => p.1.match' p.2 nooctave)

/-- Source `Chord.__add__(other)` for a `Note`/`Interval` operand: add the
operand to every real note and build a new keyless chord. -/
def Chord.addNote (c : Chord) (other : Note) : Chord :=
  chordOfNotes (c.real_notes.map (fun n => n.add other)) none

/-- Source `Chord.__init__(short=...)` after `_parse_short` has produced a
root and a full quality name: the notes are the root followed by root + i for
each interval of the quality.  Only names present in `_QUALITIES` reach this
point in the source (the `getD []` default is dead). -/
def chord_from_quality (root : Note) (quality : String) : Chord :=
  let intervals := ((QUALITIES.find? (fun p => p.1 == quality)).map Prod.snd).getD []
  ⟨root :: intervals.map (fun i => root.add i), none⟩

/-- Chord constant `Cmaj = Chord(short='Cmaj')` (root `C`, quality
`major`). -/
def Cmaj : Chord := chord_from_quality C "major"

/-- Chord constant `Dmaj = Chord(short='Dmaj')` (root `D`, quality
`major`). -/
def Dmaj : Chord := chord_from_quality D "major"

/-- Chord-in-key constant `I = Chord(notes=(C, E, G))`. -/
def I : Chord := chordOfNotes [C, E, G] none

/-- Chord-in-key constant `ii = Chord(notes=(D, F, A))`. -/
def ii : Chord := chordOfNotes [D, F, A] none

/-- Chord-in-key constant `iii = Chord(notes=(E, G, B))`. -/
def iii : Chord := chordOfNotes [E, G, B] none

/-- Chord-in-key constant `IV = Chord(notes=(F, A, C1))`. -/
def IV : Chord := chordOfNotes [F, A, C1] none

/-- Chord-in-key constant `V = Chord(notes=(G, B, D1))`. -/
def V : Chord := chordOfNotes [G, B, D1] none

/-- Chord-in-key constant `vi = Chord(notes=(A, C1, E1))`. -/
def vi : Chord := chordOfNotes [A, C1, E1] none

/-- Chord-in-key constant `vii = Chord(notes=(B, D1, F1))`. -/
def vii : Chord := chordOfNotes [B, D1, F1] none

/-- Source `PROGRESSIONS` table (interior progressions, in declaration
order). -/
def PROGRESSIONS : List (Chord × Chord) :=
  [(I, IV), (IV, vii), (vii, iii), (iii, vi), (vi, ii), (ii, V), (V, I),
   (I, V), (V, vi), (vi, iii), (iii, IV), (IV, I), (IV, V),
   (I, vi), (vi, IV), (IV, vi), (IV, ii), (ii, IV), (ii, vi), (vi, ii),
   (IV, I), (I, iii), (vi, V), (V, vi), (V, ii)]

/-- Source `CADENCES` table (progressions allowed at the temporally earliest
step, in declaration order). -/
def CADENCES : List (Chord × Chord) :=
  [(V, I), (IV, I), (I, V), (ii, V), (IV, V), (V, vi), (V, IV), (V, ii)]

/-- Python sequence indexing `l[i]` for the melody: negative indices count
from the end.  (Out-of-range access raises in Python; the harmonization flow
only ever indexes in range, where this total model agrees.) -/
def pyGet (l : List Note) (i : Int) : Note :=
  if i < 0 then l.getD ((l.length + i).toNat) default
  else l.getD i.toNat default

/-- Source `apply_progression(progression, chord)`: when the successor shape
matches the chord's shape (tuple equality of `intervals`), transpose the
predecessor by the wrapped interval between the two roots.  The source returns
the pair `(chord, key)` or `(None, None)`; only the chord is consumed by the
search, so the key is dropped here. -/
def apply_progression (progression : Chord × Chord) (chord : Chord) : Option Chord :=
  if noteListEq progression.2.intervals chord.intervals then
    let a := chord.real_notes.headI
    let b := progression.2.real_notes.headI
    let i0 := a.sub b
    let intv := if a.steps < b.steps then C.sub i0 else plain_copy i0
    some (progression.1.addNote intv)
  else none

/-- The `for progression in progressions` loop of `get_harmonizations`,
threading the accumulated `harmonizations` and `seen` lists. -/
def gh_loop (prev_chord : Chord) (melody_note : Note) (harmonization : List Chord) :
    List (Chord × Chord) → List (List Chord) → List Chord → List (List Chord)
  | [], harms, _ => harms
  | p :: rest, harms, seen =>
    match apply_progression p prev_chord with
    | none => gh_loop prev_chord melody_note harmonization rest harms seen
    | some chord =>
      if chord.has_note melody_note false && !(seen.any (fun c => c.match' chord true)) then
        gh_loop prev_chord melody_note harmonization rest
          (harms ++ [chord :: harmonization]) (seen ++ [chord])
      else gh_loop prev_chord melody_note harmonization rest harms seen

/-- The `if progressions is None` default of `get_harmonizations`: with no
explicit table, the cadence table is used exactly when the current
harmonization has a single chord. -/
def choose_progs (progressions : Option (List (Chord × Chord)))
    (hlen : Nat) : List (Chord × Chord) :=
  match progressions with
  | some ps => ps
  | none => if hlen = 1 then CADENCES else PROGRESSIONS

/-- Source `get_harmonizations(harmonization, melody, progressions)`: one
backward search step.  `step = len(melody) - len(harmonization)`; the melody
note examined is `melody[step - 1]`. -/
def get_harmonizations (harmonization : List Chord) (melody : List Note)
    (progressions : Option (List (Chord × Chord))) : List (List Chord) :=
  let step : Int := (melody.length : Int) - (harmonization.length : Int)
  let melody_note := pyGet melody (step - 1)
  let prev_chord := harmonization.headI
  gh_loop prev_chord melody_note harmonization
    (choose_progs progressions harmonization.length) [] []

/-- Source `fill_harmonizations(harmonizations, melody)`: extend every
partial harmonization by one step and concatenate the results in order. -/
def fill_harmonizations : List (List Chord) → List Note → List (List Chord)
  | [], _ => []
  | h :: rest, melody =>
    get_harmonizations h melody none ++ fill_harmonizations rest melody

/-- The `for i in range(len(melody) - 1)` loop of `harmonize`: apply
`fill_harmonizations` the given number of times. -/
def fill_iter (melody : List Note) : Nat → List (List Chord) → List (List Chord)
  | 0, hs => hs
  | m + 1, hs => fill_iter melody m (fill_harmonizations hs melody)

/-- Source `harmonize(melody, final_chord)`: seed with the supplied final
chord, or with `Cmaj + melody[-1]`, and run `len(melody) - 1` fill steps. -/
def harmonize (melody : List Note) (final_chord : Option Chord) : List (List Chord) :=
  let fc := match final_chord with
    | some ch => ch
    | none => Cmaj.addNote (pyGet melody (-1))
  fill_iter melody (melody.length - 1) [[fc]]

/-- Attribute values stored in the `__dict__` of the source's three classes:
integers (and the letter index) for `Note`/`Interval`, a note tuple and an
optional key for `Chord`. -/
inductive AttrVal where
  | int : Int → AttrVal
  | notelist : List Note → AttrVal
  | optnote : Option Note → AttrVal
deriving DecidableEq

/-- State of a Python object under the `FrozenClass` protocol: its attribute
dictionary and the `__is_frozen` flag. -/
structure PyObj where
  attrs : List (String × AttrVal)
  is_frozen : Bool
deriving DecidableEq

/-- Source `FrozenClass.__setattr__`: raises `TypeError` when the object is
frozen (before touching the dictionary), otherwise stores the attribute. -/
def frozen_setattr (o : PyObj) (k : String) (v : AttrVal) : Except String PyObj :=
  if o.is_frozen then Except.error "frozen class"
  else Except.ok ⟨(k, v) :: o.attrs.filter (fun p => !(p.1 == k)), o.is_frozen⟩

/-- Source `FrozenClass.__delattr__`: raises `TypeError` when the object is
frozen (before touching the dictionary), otherwise removes the attribute. -/
def frozen_delattr (o : PyObj) (k : String) : Except String PyObj :=
  if o.is_frozen then Except.error "frozen class"
  else Except.ok ⟨o.attrs.filter (fun p => !(p.1 == k)), o.is_frozen⟩

/-- State of a `Note` object after `Note.__init__` has completed: every
constructor path of the source ends with `self._freeze()`. -/
def note_obj (n : Note) : PyObj :=
  ⟨[("name", AttrVal.int n.name), ("accidental", AttrVal.int n.accidental),
    ("octave", AttrVal.int n.octave)], true⟩

/-- State of an `Interval` object after `Interval.__init__` has completed:
every path delegates to `Note.__init__`, which freezes. -/
def interval_obj (n : Note) : PyObj := note_obj n

/-- State of a `Chord` object after `Chord.__init__` has completed: the
constructor ends with `self._freeze()`. -/
def chord_obj (c : Chord) : PyObj :=
  ⟨[("notes", AttrVal.notelist c.notes), ("key", AttrVal.optnote c.key)], true⟩

/-!
Replay of the source doctests, validating the embedding on the concrete
inputs documented in `harmonize.py`.
-/

example : steps_to_scale_num 4 false = (2, 0, 0) := by decide
example : steps_to_scale_num 5 false = (3, 0, 0) := by decide
example : steps_to_scale_num 6 false = (3, 1, 0) := by decide
example : steps_to_scale_num 12 false = (0, 0, 1) := by decide
example : steps_to_scale_num 13 false = (0, 1, 1) := by decide
example : steps_to_scale_num 15 false = (1, 1, 1) := by decide
example : steps_to_scale_num (-1) false = (6, 0, -1) := by decide
example : steps_to_scale_num (-2) false = (5, 1, -1) := by decide
example : steps_to_scale_num (-2) true = (6, -1, -1) := by decide
example : steps_to_scale_num (-12) false = (0, 0, -1) := by decide
example : steps_to_scale_num (-24) false = (0, 0, -2) := by decide

example : scale_num_to_steps 1 0 0 = 2 := by decide
example : scale_num_to_steps 5 0 0 = 9 := by decide
example : scale_num_to_steps 7 0 0 = 12 := by decide
example : scale_num_to_steps 8 0 0 = 14 := by decide
example : scale_num_to_steps 12 0 0 = 21 := by decide
example : scale_num_to_steps (-1) 0 0 = -1 := by decide
example : scale_num_to_steps (-2) 0 0 = -3 := by decide
example : scale_num_to_steps (-3) 0 0 = -5 := by decide
example : scale_num_to_steps (-7) 0 0 = -12 := by decide
example : scale_num_to_steps (-8) 0 0 = -13 := by decide

-- `Note.__add__` doctests: C + D = D0, G + P4 = C1, A + E = C#1,
-- A-1 + Ab-1 = F-1, B + Ab-1 = G0, Ab3 + M7 = G4.
example : C.add D = D := by decide
example : G.add P4 = C1 := by decide
example : A.add E = ⟨0, 1, 1, false⟩ := by decide
example : (⟨5, 0, -1, false⟩ : Note).add P4 = D := by decide
example : (⟨5, 0, -1, false⟩ : Note).add ⟨5, -1, -1, false⟩ = ⟨3, 0, -1, false⟩ := by decide
example : B.add ⟨5, -1, -1, false⟩ = G := by decide
example : (⟨5, -1, 3, false⟩ : Note).add M7 = ⟨4, 0, 4, false⟩ := by decide

-- `Note.__sub__` doctests: Ab - C = m6 (⟨5,-1,0⟩ as interval), B - E = P5,
-- E - B = P5, G - E = m3, G - Eb = M3, G - M3 = Eb0, C - P4 = G-1,
-- P5 - P4 = M2, M2 - P4 = m3, M2 - O = m7.
example : (⟨5, -1, 0, false⟩ : Note).sub C = ⟨5, -1, 0, true⟩ := by decide
example : B.sub E = P5 := by decide
example : E.sub B = P5 := by decide
example : G.sub E = m3 := by decide
example : G.sub ⟨2, -1, 0, false⟩ = M3 := by decide
example : G.sub M3 = ⟨2, -1, 0, false⟩ := by decide
example : C.sub P4 = ⟨4, 0, -1, false⟩ := by decide
example : P5.sub P4 = M2 := by decide
example : M2.sub P4 = m3 := by decide
example : M2.sub O = m7 := by decide

-- Chord construction sanity: Cmaj is C-E-G, Dmaj is D-F#-A; the chord-in-key
-- triads have the expected shapes and qualities.
example : Cmaj.notes = [C, E, G] := by decide
example : Dmaj.notes = [D, ⟨3, 1, 0, false⟩, A] := by decide
example : Cmaj.quality = "major" := by decide
example : I.quality = "major" := by decide
example : ii.quality = "minor" := by decide
example : vii.quality = "diminished" := by decide
example : (chord_from_quality D "minor-seventh").quality = "minor-seventh" := by decide
example : (chordOfNotes [C, D] none).quality = "Unknown" := by decide

/-!
Arithmetic lemmas about the pitch embedding.
-/

lemma isInterval_noteOfScaleNum (k : Bool) (sn acc : Int) :
    (noteOfScaleNum k sn acc).isInterval = k := rfl

lemma scale_num_noteOfScaleNum (k : Bool) (sn acc : Int) :
    (noteOfScaleNum k sn acc).scale_num = sn := by
  simp only [noteOfScaleNum, Note.scale_num]
  omega

lemma steps_noteOfScaleNum (k : Bool) (sn acc : Int) :
    (noteOfScaleNum k sn acc).steps = scale_num_to_steps sn 0 0 + acc := by
  simp only [noteOfScaleNum, Note.steps, scale_num_to_steps]
  have h1 : (((sn % 7).toNat : Int)) = sn % 7 := by omega
  rw [h1]
  have h2 : sn % 7 % 7 = sn % 7 := by omega
  rw [h2]
  have h3 : sn % 7 / 7 = 0 := by omega
  rw [h3]
  split <;> omega

lemma steps_add (a b : Note) : (a.add b).steps = a.steps + b.steps := by
  simp only [Note.add, steps_noteOfScaleNum]
  ring

lemma scale_num_add (a b : Note) :
    (a.add b).scale_num = a.scale_num + b.scale_num := by
  simp only [Note.add, scale_num_noteOfScaleNum]

lemma isInterval_add (a b : Note) : (a.add b).isInterval = a.isInterval := rfl

lemma steps_roundtrip_eq (s : Int) (flat : Bool) : steps_roundtrip s flat = s := by
  simp only [steps_roundtrip, steps_to_scale_num, scale_num_to_steps]
  have h1 : 12 * (s / 12) + s % 12 = s := by omega
  have h2 : 0 ≤ s % 12 := by omega
  have h3 : s % 12 < 12 := by omega
  generalize hq : s / 12 = q at h1
  generalize hr : s % 12 = r at h1 h2 h3
  have hcase : r = 0 ∨ r = 1 ∨ r = 2 ∨ r = 3 ∨ r = 4 ∨ r = 5 ∨ r = 6 ∨
      r = 7 ∨ r = 8 ∨ r = 9 ∨ r = 10 ∨ r = 11 := by omega
  rcases hcase with rfl | rfl | rfl | rfl | rfl | rfl | rfl | rfl | rfl | rfl | rfl | rfl <;>
    cases flat <;> simp <;> omega

/-!
Claim theorems.
-/

/-- C2: for every steps value `s` in `-36..36` and both values of the
flat/preferFlat flag, feeding the (scale degree, accidental, octave) triple
produced by `steps_to_scale_num` back through `scale_num_to_steps` yields `s`
again; in particular the flat and non-flat spellings of the same `s` resolve
to the same steps. -/
theorem claim2 (s : Int) (_h1 : -36 ≤ s) (_h2 : s ≤ 36) :
    (∀ flat : Bool, steps_roundtrip s flat = s) ∧
      steps_roundtrip s true = steps_roundtrip s false := by
  refine ⟨fun flat => steps_roundtrip_eq s flat, ?_⟩
  rw [steps_roundtrip_eq, steps_roundtrip_eq]

theorem claim2_witness :
    ((-36 : Int) ≤ -2 ∧ (-2 : Int) ≤ 36) ∧
      ((∀ flat : Bool, steps_roundtrip (-2) flat = -2) ∧
        steps_roundtrip (-2) true = steps_roundtrip (-2) false) :=
  ⟨⟨by decide, by decide⟩, claim2 (-2) (by decide) (by decide)⟩

/-- C4: subtracting two plain Notes (neither an Interval) yields an Interval
whose distance is nonnegative, and the subtraction is symmetric:
`x - y = y - x`. -/
theorem claim4 (x y : Note) (hx : x.isInterval = false)
    (hy : y.isInterval = false) :
    (x.sub y).isInterval = true ∧ 0 ≤ (x.sub y).distance ∧ x.sub y = y.sub x := by
  have hcond : (!x.isInterval && y.isInterval) = false := by rw [hx, hy]; rfl
  have hcond2 : (!y.isInterval && x.isInterval) = false := by rw [hy, hx]; rfl
  refine ⟨?_, ?_, ?_⟩
  · simp [Note.sub, hcond, isInterval_noteOfScaleNum]
  · exact abs_nonneg _
  · simp only [Note.sub, hcond, hcond2, Bool.false_eq_true, if_false]
    rw [abs_sub_comm x.scale_num y.scale_num, abs_sub_comm x.steps y.steps]

theorem claim4_witness :
    (Harmonize.E.isInterval = false ∧ Harmonize.G.isInterval = false) ∧
      ((Harmonize.E.sub Harmonize.G).isInterval = true ∧
        0 ≤ (Harmonize.E.sub Harmonize.G).distance ∧
        Harmonize.E.sub Harmonize.G = Harmonize.G.sub Harmonize.E) :=
  ⟨⟨rfl, rfl⟩, claim4 Harmonize.E Harmonize.G rfl rfl⟩

/-- C5: addition of Notes/Intervals is commutative in pitch (`a + b` and
`b + a` have equal steps), and the kind of the result (Note vs Interval)
follows the left operand. -/
theorem claim5 (a b : Note) :
    (a.add b).steps = (b.add a).steps ∧ (a.add b).isInterval = a.isInterval := by
  constructor
  · rw [steps_add, steps_add]; ring
  · rfl

lemma notes_to_intervals_cons (root : Note) (l : List Note) :
    notes_to_intervals (root :: l) = l.map (fun n => n.sub root) := rfl

lemma sub_add_right (r x : Note) (h1 : 0 ≤ x.scale_num) (h2 : 0 ≤ x.steps) :
    (r.add x).sub r =
      noteOfScaleNum true x.scale_num
        (x.steps - scale_num_to_steps x.scale_num 0 0) := by
  have hcond : (!(r.add x).isInterval && r.isInterval) = false := by
    rw [isInterval_add]; cases r.isInterval <;> rfl
  simp only [Note.sub, hcond, Bool.false_eq_true, if_false]
  rw [scale_num_add, steps_add]
  have e1 : r.scale_num + x.scale_num - r.scale_num = x.scale_num := by ring
  have e2 : r.steps + x.steps - r.steps = x.steps := by ring
  rw [e1, e2, abs_of_nonneg h1, abs_of_nonneg h2]

lemma chord_from_quality_quality (root : Note) (q : String) (ivs : List Note)
    (hfind : ((QUALITIES.find? (fun p => p.1 == q)).map Prod.snd).getD [] = ivs)
    (hpos : ∀ i ∈ ivs, 0 ≤ i.scale_num ∧ 0 ≤ i.steps)
    (hq : intervals_to_quality (ivs.map (fun i =>
        noteOfScaleNum true i.scale_num
          (i.steps - scale_num_to_steps i.scale_num 0 0))) = some q) :
    (chord_from_quality root q).quality = q := by
  have hc : chord_from_quality root q =
      ⟨root :: ivs.map (fun i => root.add i), none⟩ := by
    unfold chord_from_quality
    rw [hfind]
  rw [hc]
  unfold Chord.quality
  have hmap : notes_to_intervals (root :: ivs.map (fun i => root.add i)) =
      ivs.map (fun i =>
        noteOfScaleNum true i.scale_num
          (i.steps - scale_num_to_steps i.scale_num 0 0)) := by
    rw [notes_to_intervals_cons, List.map_map]
    apply List.map_congr_left
    intro i hi
    exact sub_add_right root i (hpos i hi).1 (hpos i hi).2
  rw [hmap, hq]

/-- C6: constructing a Chord from any quality name of the fixed table and
reading back `quality` returns that same name, for every root; and any chord
whose root-relative interval tuple matches no table entry reads back the
explicit sentinel (spelled `"Unknown"` by the source) instead of failing. -/
theorem claim6 :
    (∀ (root : Note), ∀ p ∈ QUALITIES,
        (chord_from_quality root p.1).quality = p.1) ∧
      (∀ c : Chord, intervals_to_quality c.intervals = none →
        c.quality = "Unknown") := by
  constructor
  · intro root p hp
    fin_cases hp <;>
      exact chord_from_quality_quality _ _ _ rfl (by decide) (by decide)
  · intro c h
    unfold Chord.quality
    unfold Chord.intervals at h
    rw [h]

theorem claim6_witness :
    ((("minor-seventh", [m3, P5, m7]) ∈ QUALITIES ∧
        (chord_from_quality D "minor-seventh").quality = "minor-seventh")) ∧
      (intervals_to_quality (chordOfNotes [C, D] none).intervals = none ∧
        (chordOfNotes [C, D] none).quality = "Unknown") :=
  ⟨⟨by decide, claim6.1 D ("minor-seventh", [m3, P5, m7]) (by decide)⟩,
    ⟨by decide, claim6.2 (chordOfNotes [C, D] none) (by decide)⟩⟩

/-- C9: a Note, Interval or Chord is frozen once its construction has
completed, and on a frozen object every attribute set or delete attempt
raises (is never silently ignored) and yields no mutated successor state. -/
theorem claim9 :
    (∀ n : Note, (note_obj n).is_frozen = true ∧ (interval_obj n).is_frozen = true) ∧
      (∀ c : Chord, (chord_obj c).is_frozen = true) ∧
      (∀ (o : PyObj) (k : String) (v : AttrVal), o.is_frozen = true →
        frozen_setattr o k v = Except.error "frozen class" ∧
          frozen_delattr o k = Except.error "frozen class" ∧
          (∀ o2 : PyObj, frozen_setattr o k v ≠ Except.ok o2) ∧
          (∀ o2 : PyObj, frozen_delattr o k ≠ Except.ok o2)) := by
  refine ⟨fun n => ⟨rfl, rfl⟩, fun c => rfl, ?_⟩
  intro o k v h
  have hs : frozen_setattr o k v = Except.error "frozen class" := by
    simp [frozen_setattr, h]
  have hd : frozen_delattr o k = Except.error "frozen class" := by
    simp [frozen_delattr, h]
  refine ⟨hs, hd, ?_, ?_⟩
  · intro o2 hc
    rw [hs] at hc
    exact Except.noConfusion hc
  · intro o2 hc
    rw [hd] at hc
    exact Except.noConfusion hc

theorem claim9_witness :
    (note_obj C).is_frozen = true ∧
      frozen_setattr (note_obj C) "octave" (AttrVal.int 3) =
        Except.error "frozen class" ∧
      frozen_delattr (note_obj C) "octave" = Except.error "frozen class" :=
  ⟨rfl,
    (claim9.2.2 (note_obj C) "octave" (AttrVal.int 3) rfl).1,
    (claim9.2.2 (note_obj C) "octave" (AttrVal.int 3) rfl).2.1⟩

/-- C10: `Chord.match` compares `real_notes` positionally via `zip`, hence
examines only the common-length prefix: whenever every zipped pair matches in
pitch class, `match` returns true even for chords of different lengths — in
particular the C major triad matches the C dominant-seventh chord extending
it although their note lists differ, so `match` is strictly coarser than
equality of the note sets. -/
theorem claim10 :
    (∀ c1 c2 : Chord, c1.real_notes.length ≠ c2.real_notes.length →
        ((c1.real_notes.zip c2.real_notes).all
          (fun p => p.1.match' p.2 true)) = true →
        c1.match' c2 true = true) ∧
      (I.match' (chord_from_quality C "dominant-seventh") true = true ∧
        (chord_from_quality C "dominant-seventh").match' I true = true ∧
        I.real_notes ≠ (chord_from_quality C "dominant-seventh").real_notes) := by
  refine ⟨fun c1 c2 _ h => h, by decide, by decide, by decide⟩

theorem claim10_witness :
    (I.real_notes.length ≠
        (chord_from_quality C "dominant-seventh").real_notes.length ∧
      ((I.real_notes.zip (chord_from_quality C "dominant-seventh").real_notes).all
        (fun p => p.1.match' p.2 true)) = true) ∧
      I.match' (chord_from_quality C "dominant-seventh") true = true :=
  ⟨⟨by decide, by decide⟩,
    claim10.1 I (chord_from_quality C "dominant-seventh") (by decide) (by decide)⟩

/-!
Lemmas about the search loop.
-/

lemma note_match_symm (a b : Note) (n : Bool) : a.match' b n = b.match' a n := by
  unfold Note.match'
  cases n
  · rw [Bool.eq_iff_iff]
    simp only [beq_iff_eq, if_false, Bool.false_eq_true]
    omega
  · rw [Bool.eq_iff_iff]
    simp only [beq_iff_eq, if_true]
    omega

lemma zip_all_match_symm (n : Bool) : ∀ (l1 l2 : List Note),
    ((l1.zip l2).all (fun p => p.1.match' p.2 n)) =
      ((l2.zip l1).all (fun p => p.1.match' p.2 n))
  | [], l2 => by cases l2 <;> rfl
  | _ :: _, [] => rfl
  | x :: t1, y :: t2 => by
    simp only [List.zip_cons_cons, List.all_cons]
    rw [note_match_symm, zip_all_match_symm n t1 t2]

lemma chord_match_symm (a b : Chord) (n : Bool) : a.match' b n = b.match' a n :=
  zip_all_match_symm n a.real_notes b.real_notes

lemma gh_loop_mem (pc : Chord) (mn : Note) (h : List Chord) :
    ∀ (progs : List (Chord × Chord)) (harms : List (List Chord))
      (seen : List Chord) (h2 : List Chord),
      h2 ∈ gh_loop pc mn h progs harms seen →
      h2 ∈ harms ∨ ∃ chord : Chord, h2 = chord :: h ∧
        chord.has_note mn false = true := by
  intro progs
  induction progs with
  | nil => intro harms seen h2 hmem; exact Or.inl hmem
  | cons p rest ihp =>
    intro harms seen h2 hmem
    simp only [gh_loop] at hmem
    split at hmem
    · exact ihp harms seen h2 hmem
    · rename_i chord hap
      split at hmem
      · rename_i hc
        rcases ihp _ _ h2 hmem with hin | hex
        · rcases List.mem_append.mp hin with hin1 | hin2
          · exact Or.inl hin1
          · have heq := List.mem_singleton.mp hin2
            subst heq
            exact Or.inr ⟨chord, rfl, (Bool.and_eq_true_iff.mp hc).1⟩
        · exact Or.inr hex
      · exact ihp _ _ h2 hmem

lemma gh_loop_pairwise (pc : Chord) (mn : Note) (h : List Chord) :
    ∀ (progs : List (Chord × Chord)) (harms : List (List Chord))
      (seen : List Chord),
      harms.map (fun x => x.headI) = seen →
      List.Pairwise (fun a b => a.match' b true = false) seen →
      List.Pairwise (fun a b => a.match' b true = false)
        ((gh_loop pc mn h progs harms seen).map (fun x => x.headI)) := by
  intro progs
  induction progs with
  | nil =>
    intro harms seen hmap hpw
    simp only [gh_loop]
    rw [hmap]
    exact hpw
  | cons p rest ihp =>
    intro harms seen hmap hpw
    simp only [gh_loop]
    cases hap : apply_progression p pc with
    | none =>
      simp only [hap]
      exact ihp harms seen hmap hpw
    | some chord =>
      simp only [hap]
      by_cases hc : (chord.has_note mn false &&
          !(seen.any (fun c => c.match' chord true))) = true
      · rw [if_pos hc]
        apply ihp
        · rw [List.map_append, hmap]
          rfl
        · rw [List.pairwise_append]
          refine ⟨hpw, List.pairwise_singleton _ _, ?_⟩
          intro a ha b hb
          have hb2 := List.mem_singleton.mp hb
          rw [hb2]
          have hno := (Bool.and_eq_true_iff.mp hc).2
          have hany : (seen.any (fun c => c.match' chord true)) = false := by
            cases hval : seen.any (fun c => c.match' chord true)
            · rfl
            · rw [hval] at hno; exact absurd hno (by decide)
          cases hval : a.match' chord true
          · rfl
          · exfalso
            have hone : seen.any (fun c => c.match' chord true) = true :=
              List.any_eq_true.mpr ⟨a, ha, hval⟩
            rw [hone] at hany
            exact Bool.noConfusion hany
      · rw [if_neg hc]
        exact ihp harms seen hmap hpw

/-- C7: at every single search step (any predecessor sequence, melody and
table), the accepted predecessor chords — the first chords of the sequences
returned by `get_harmonizations` — are pairwise non-matching under the
octave-agnostic chord match relation. -/
theorem claim7 (harmonization : List Chord) (melody : List Note)
    (progressions : Option (List (Chord × Chord))) :
    List.Pairwise
      (fun c1 c2 => c1.match' c2 true = false ∧ c2.match' c1 true = false)
      ((get_harmonizations harmonization melody progressions).map
        (fun x => x.headI)) := by
  refine List.Pairwise.imp ?_
    (gh_loop_pairwise _ _ harmonization _ [] [] rfl List.Pairwise.nil)
  intro a b hR
  exact ⟨hR, (chord_match_symm b a true).trans hR⟩

lemma gh_loop_no_accept (pc : Chord) (mn : Note) (h : List Chord) :
    ∀ (progs : List (Chord × Chord)),
      (∀ p ∈ progs, Option.all (fun c => !(c.has_note mn false))
        (apply_progression p pc) = true) →
      ∀ (harms : List (List Chord)) (seen : List Chord),
        gh_loop pc mn h progs harms seen = harms := by
  intro progs
  induction progs with
  | nil => intro _ harms seen; rfl
  | cons p rest ihp =>
    intro hall harms seen
    simp only [gh_loop]
    have hp := hall p (List.mem_cons_self p rest)
    have hrest : ∀ q ∈ rest, Option.all (fun c => !(c.has_note mn false))
        (apply_progression q pc) = true :=
      fun q hq => hall q (List.mem_cons_of_mem p hq)
    split
    · exact ihp hrest harms seen
    · rename_i chord hap
      rw [hap] at hp
      have hnote : chord.has_note mn false = false := by
        simp only [Option.all] at hp
        cases hval : chord.has_note mn false
        · rfl
        · rw [hval] at hp; exact absurd hp (by decide)
      split
      · rename_i hc
        exfalso
        have hval := (Bool.and_eq_true_iff.mp hc).1
        rw [hnote] at hval
        exact Bool.noConfusion hval
      · exact ihp hrest harms seen

/-- C8: a search step at which no progression entry passes both the
quality-shape match (`apply_progression` succeeding) and the melody-note
containment test contributes no sequences, and an empty working set
propagates through `fill_harmonizations` and the whole `harmonize` loop, so
that the function returns an empty collection instead of failing. -/
theorem claim8 :
    (∀ (harmonization : List Chord) (melody : List Note)
        (progs : List (Chord × Chord)),
      (∀ p ∈ progs, Option.all
        (fun c => !(c.has_note
          (pyGet melody
            ((melody.length : Int) - (harmonization.length : Int) - 1)) false))
        (apply_progression p harmonization.headI) = true) →
      get_harmonizations harmonization melody (some progs) = []) ∧
    (∀ melody : List Note, fill_harmonizations [] melody = []) ∧
    (∀ (melody : List Note) (m : Nat), fill_iter melody m [] = []) := by
  refine ⟨?_, fun _ => rfl, ?_⟩
  · intro harmonization melody progs hall
    exact gh_loop_no_accept harmonization.headI _ harmonization progs hall [] []
  · intro melody m
    induction m with
    | zero => rfl
    | succ m ihm => exact ihm

theorem claim8_witness :
    (∀ p ∈ CADENCES, Option.all
        (fun c => !(c.has_note
          (pyGet [C, C]
            ((([C, C] : List Note).length : Int) -
              ((([chordOfNotes [C] none]) : List Chord).length : Int) - 1)) false))
        (apply_progression p ([chordOfNotes [C] none] : List Chord).headI) = true) ∧
      get_harmonizations [chordOfNotes [C] none] [C, C] (some CADENCES) = [] :=
  ⟨by decide, claim8.1 [chordOfNotes [C] none] [C, C] CADENCES (by decide)⟩

lemma pyGet_nonneg (l : List Note) (i : Int) (hi : 0 ≤ i) :
    pyGet l i = l.getD i.toNat default := by
  unfold pyGet
  rw [if_neg (by omega)]

lemma get_harmonizations_mem (harmonization : List Chord) (melody : List Note)
    (progressions : Option (List (Chord × Chord))) (h2 : List Chord)
    (hmem : h2 ∈ get_harmonizations harmonization melody progressions) :
    ∃ chord : Chord, h2 = chord :: harmonization ∧
      chord.has_note
        (pyGet melody ((melody.length : Int) - (harmonization.length : Int) - 1))
        false = true := by
  have heq : get_harmonizations harmonization melody progressions =
      gh_loop harmonization.headI
        (pyGet melody ((melody.length : Int) - (harmonization.length : Int) - 1))
        harmonization
        (choose_progs progressions harmonization.length) [] [] := rfl
  rw [heq] at hmem
  rcases gh_loop_mem _ _ _ _ [] [] h2 hmem with hin | hex
  · exact absurd hin (List.not_mem_nil h2)
  · exact hex

lemma fill_harmonizations_mem :
    ∀ (hs : List (List Chord)) (melody : List Note) (h2 : List Chord),
      h2 ∈ fill_harmonizations hs melody →
      ∃ h ∈ hs, h2 ∈ get_harmonizations h melody none := by
  intro hs
  induction hs with
  | nil => intro melody h2 hmem; exact absurd hmem (List.not_mem_nil h2)
  | cons h rest ihh =>
    intro melody h2 hmem
    simp only [fill_harmonizations] at hmem
    rcases List.mem_append.mp hmem with h1 | h1
    · exact ⟨h, List.mem_cons_self h rest, h1⟩
    · rcases ihh melody h2 h1 with ⟨h3, hm3, hg3⟩
      exact ⟨h3, List.mem_cons_of_mem h hm3, hg3⟩

lemma fill_iter_invariant (melody : List Note) :
    ∀ (m k : Nat) (hs : List (List Chord)),
      1 ≤ k → k + m ≤ melody.length →
      (∀ h ∈ hs, h.length = k ∧ ∀ i < k,
        (h.getD i default).has_note
          (melody.getD (melody.length - k + i) default) false = true) →
      ∀ h2 ∈ fill_iter melody m hs, h2.length = k + m ∧ ∀ i < k + m,
        (h2.getD i default).has_note
          (melody.getD (melody.length - (k + m) + i) default) false = true := by
  intro m
  induction m with
  | zero =>
    intro k hs _ _ hgood h2 hmem
    simp only [fill_iter] at hmem
    have hres := hgood h2 hmem
    simpa using hres
  | succ m ihm =>
    intro k hs hk hkm hgood h2 hmem
    simp only [fill_iter] at hmem
    have hstep : ∀ h3 ∈ fill_harmonizations hs melody, h3.length = k + 1 ∧
        ∀ i < k + 1, (h3.getD i default).has_note
          (melody.getD (melody.length - (k + 1) + i) default) false = true := by
      intro h3 hm3
      rcases fill_harmonizations_mem hs melody h3 hm3 with ⟨h4, hm4, hg4⟩
      rcases get_harmonizations_mem h4 melody none h3 hg4 with ⟨chord, rfl, hnote⟩
      have hlen4 : h4.length = k := (hgood h4 hm4).1
      have hk1 : k + 1 ≤ melody.length := by omega
      constructor
      · simp [hlen4]
      · intro i hi
        cases i with
        | zero =>
          rw [List.getD_cons_zero]
          have hidx : pyGet melody
              ((melody.length : Int) - (h4.length : Int) - 1) =
              melody.getD (melody.length - (k + 1) + 0) default := by
            rw [hlen4, pyGet_nonneg _ _ (by omega)]
            congr 1
            omega
          rw [← hidx]
          exact hnote
        | succ j =>
          have hj : j < k := by omega
          have hres := (hgood h4 hm4).2 j hj
          rw [List.getD_cons_succ]
          rw [show melody.length - (k + 1) + (j + 1) =
            melody.length - k + j by omega]
          exact hres
    have hres := ihm (k + 1) (fill_harmonizations hs melody)
      (by omega) (by omega) hstep h2 hmem
    rcases hres with ⟨hl, hii⟩
    constructor
    · omega
    · intro i hi
      have hval := hii i (by omega)
      rw [show melody.length - (k + (m + 1)) + i =
        melody.length - (k + 1 + m) + i by omega]
      exact hval

lemma default_final_contains (x : Note) :
    (Cmaj.addNote x).has_note x false = true := by
  show ((Cmaj.addNote x).real_notes.any (fun n => n.match' x true)) = true
  apply List.any_eq_true.mpr
  refine ⟨C.add x, ?_, ?_⟩
  · have hmem : C.add x ∈ Cmaj.real_notes.map (fun n => n.add x) := by
      apply List.mem_map_of_mem
      decide
    show C.add x ∈ sortNotes (Cmaj.real_notes.map (fun n => n.add x))
    unfold sortNotes
    exact (List.mem_insertionSort _).mpr hmem
  · show (((C.add x).steps - x.steps) % 12 == 0) = true
    have hsteps : (C.add x).steps = x.steps := by
      rw [steps_add]
      have hC : C.steps = 0 := by decide
      rw [hC]
      ring
    rw [hsteps]
    simp

lemma harmonize_core (melody : List Note) (fc2 : Chord)
    (hlen1 : 1 ≤ melody.length)
    (hfinal : fc2.has_note (pyGet melody (-1)) false = true) :
    ∀ h ∈ fill_iter melody (melody.length - 1) [[fc2]],
      h.length = melody.length ∧
      ∀ i < melody.length,
        (h.getD i default).has_note (melody.getD i default) false = true := by
  intro h hmem
  have hseed : ∀ h0 ∈ ([[fc2]] : List (List Chord)), h0.length = 1 ∧ ∀ i < 1,
      (h0.getD i default).has_note
        (melody.getD (melody.length - 1 + i) default) false = true := by
    intro h0 hm0
    have h0eq := List.mem_singleton.mp hm0
    subst h0eq
    refine ⟨rfl, ?_⟩
    intro i hi
    have hi0 : i = 0 := by omega
    subst hi0
    rw [List.getD_cons_zero]
    have hpy : pyGet melody (-1) = melody.getD (melody.length - 1) default := by
      unfold pyGet
      rw [if_pos (by omega)]
      congr 1
      omega
    rw [show melody.length - 1 + 0 = melody.length - 1 from rfl, ← hpy]
    exact hfinal
  have hres := fill_iter_invariant melody (melody.length - 1) 1 [[fc2]]
    (le_refl 1) (by omega) hseed h hmem
  rcases hres with ⟨hl, hii⟩
  constructor
  · omega
  · intro i hi
    have hval := hii i (by omega)
    rw [show melody.length - (1 + (melody.length - 1)) + i = i by omega] at hval
    exact hval

/-- C1 (amended): for a non-empty melody, and a final chord that — when the
caller supplies one — contains the last melody note in pitch class (the
default final chord always does), every sequence returned by `harmonize` has
the melody's length and its chord at position `i` contains the melody note at
`i` under the non-exact, octave-agnostic `has_note` test.  The original claim
drops the proviso on the supplied final chord and is refuted by
`claim1_cex`. -/
theorem claim1 (melody : List Note) (fc : Option Chord)
    (hne : melody ≠ [])
    (hfc : ∀ cf : Chord, fc = some cf →
      cf.has_note (pyGet melody (-1)) false = true) :
    ∀ h ∈ harmonize melody fc,
      h.length = melody.length ∧
      ∀ i < melody.length,
        (h.getD i default).has_note (melody.getD i default) false = true := by
  have hlen1 : 1 ≤ melody.length := List.length_pos.mpr hne
  cases fc with
  | some ch =>
    intro h hmem
    exact harmonize_core melody ch hlen1 (hfc ch rfl) h hmem
  | none =>
    intro h hmem
    exact harmonize_core melody (Cmaj.addNote (pyGet melody (-1))) hlen1
      (default_final_contains (pyGet melody (-1))) h hmem

theorem claim1_witness :
    (([C] : List Note) ≠ [] ∧
      (∀ cf : Chord, (none : Option Chord) = some cf →
        cf.has_note (pyGet [C] (-1)) false = true)) ∧
      ∀ h ∈ harmonize [C] none,
        h.length = ([C] : List Note).length ∧
        ∀ i < ([C] : List Note).length,
          (h.getD i default).has_note (([C] : List Note).getD i default)
            false = true :=
  ⟨⟨by simp, fun cf hcf => Option.noConfusion hcf⟩,
    claim1 [C] none (by simp) (fun cf hcf => Option.noConfusion hcf)⟩

/-- C1 counterexample: for melody `[C, C]` with the caller-supplied final
chord `Dmaj` (which does not contain C), `harmonize` returns sequences whose
last chord fails the containment postcondition, refuting the claim's "any
optional final Chord" quantification. -/
theorem claim1_cex :
    ∃ h ∈ harmonize [C, C] (some Dmaj),
      (h.getD 1 default).has_note (([C, C] : List Note).getD 1 default)
        false = false := by decide

/-- C3 (amended): for a melody of length 1, `harmonize` performs no search
step at all (no progression or cadence table is consulted) and returns the
single one-element sequence holding the final chord (supplied, or the default
`Cmaj + melody[-1]`).  The original claim — that the cadence-table-filtered
candidate set is returned — is refuted by `claim3_cex`. -/
theorem claim3 (m : Note) (ch : Chord) :
    harmonize [m] (some ch) = [[ch]] ∧
      harmonize [m] none = [[Cmaj.addNote m]] :=
  ⟨rfl, rfl⟩

/-- C3 counterexample: for the length-1 melody `[C]` (default final chord),
`harmonize` returns only the seed sequence, which differs both from the
cadence-table-filtered candidate set produced by `get_harmonizations` on the
cadence table and from that set cut down to length-1 sequences. -/
theorem claim3_cex :
    harmonize [C] none = [[chordOfNotes [C, E, G] none]] ∧
      get_harmonizations [chordOfNotes [C, E, G] none] [C] (some CADENCES) ≠
        harmonize [C] none ∧
      (get_harmonizations [chordOfNotes [C, E, G] none] [C]
          (some CADENCES)).map (fun h => [h.headI]) ≠
        harmonize [C] none := by decide

end Harmonize
